import Mathlib

/-!
Verification of the diff engine of the real-tools repository
(src/src/components/FormBuilder/FormBuilder.tsx): the functions
computeDiff, computeInlineDiff and getDiffStats.

Texts are modelled as lists of characters (a JavaScript string is a
sequence of UTF-16 code units; the algorithms only compare, slice and
concatenate, so List Char is a faithful carrier).  JavaScript number
arithmetic in getDiffStats is modelled by exact rational arithmetic.
-/

namespace RealTools

/-- The change classification of a diff segment
(field "type" of the DiffSegment interface). -/
inductive DiffType
  | added
  | removed
  | unchanged
deriving DecidableEq, Repr

/-- One diff segment: a tag plus the associated text.  The text carrier is a
type parameter because line mode tags whole lines while character mode tags
character runs. -/
structure DiffSegment (α : Type) where
  type : DiffType
  text : α
deriving DecidableEq, Repr

/-- Index of the first occurrence of an element in a list
(JavaScript Array.prototype.indexOf / String.prototype.indexOf,
with none in place of -1). -/
def firstIdx {α : Type} [DecidableEq α] (a : α) : List α → Option Nat
  | [] => none
  | x :: l => if x = a then some 0 else (firstIdx a l).map (· + 1)

/-- The three possible outcomes of the mismatch-resolution step. -/
inductive MismatchChoice
  | del
  | ins
  | subst
deriving DecidableEq, Repr

/-- The mismatch-resolution rule shared by computeDiff and computeInlineDiff.
Here x and y are the current elements (lines1[i], lines2[j]) and l1, l2 the
suffixes after them (lines1[i+1..], lines2[j+1..]).

In computeDiff the source computes
  nextMatchInText1 = lines1.slice(i+1).indexOf(lines2[j])
  nextMatchInText2 = lines2.slice(j+1).indexOf(lines1[i])
which are exactly firstIdx y l1 and firstIdx x l2, then tests
  nextMatchInText1 >= 0 && (nextMatchInText2 < 0 || nextMatchInText1 < nextMatchInText2)
for a deletion,
  nextMatchInText2 >= 0 && (nextMatchInText1 < 0 || nextMatchInText2 < nextMatchInText1)
for an insertion, and otherwise a paired substitution.

In computeInlineDiff the source uses absolute indices
  nextMatchInText1 = text1.indexOf(text2[j], i + 1)
  nextMatchInText2 = text2.indexOf(text1[i], j + 1)
and compares nextMatchInText1 - i with nextMatchInText2 - j; since the
absolute index equals i + 1 + the offset inside the suffix, this comparison
of differences coincides with the comparison of the suffix offsets, so the
decision is the same function of (x, y, l1, l2). -/
def mismatchChoice {α : Type} [DecidableEq α] (x y : α) (l1 l2 : List α) :
    MismatchChoice :=
  match firstIdx y l1, firstIdx x l2 with
  | some d1, some d2 =>
    if d1 < d2 then .del
    else if d2 < d1 then .ins
    else .subst
  | some _, none => .del
  | none, some _ => .ins
  | none, none => .subst

/-- The greedy two-cursor diff loop of computeDiff, element-generic.  The
cursors i and j of the source are represented by the suffixes of the two
element lists still to be processed; each emitted pair is (type, element). -/
def diffGen {α : Type} [DecidableEq α] : List α → List α → List (DiffSegment α)
  | [], [] => []
  | [], y :: l2 => ⟨.added, y⟩ :: diffGen [] l2
  | x :: l1, [] => ⟨.removed, x⟩ :: diffGen l1 []
  | x :: l1, y :: l2 =>
    if x = y then
      ⟨.unchanged, x⟩ :: diffGen l1 l2
    else
      match mismatchChoice x y l1 l2 with
      | .del => ⟨.removed, x⟩ :: diffGen l1 (y :: l2)
      | .ins => ⟨.added, y⟩ :: diffGen (x :: l1) l2
      | .subst => ⟨.removed, x⟩ :: ⟨.added, y⟩ :: diffGen l1 l2
termination_by l1 l2 => l1.length + l2.length
decreasing_by all_goals (simp only [List.length_cons, List.length_nil]; omega)

/-- text.split with separator a newline character (JavaScript
String.prototype.split: splitting the empty string yields one empty piece). -/
def splitNl : List Char → List (List Char)
  | [] => [[]]
  | c :: cs =>
    if c = '\n' then
      [] :: splitNl cs
    else
      match splitNl cs with
      | l :: ls => (c :: l) :: ls
      | [] => [[c]]

/-- Joining lines with a newline separator (Array.prototype.join with
separator a newline). -/
def joinNl : List (List Char) → List Char
  | [] => []
  | l :: ls =>
    match ls with
    | [] => l
    | _ :: _ => l ++ '\n' :: joinNl ls

/-- Line-based diff (source function computeDiff): split both texts on
newlines and run the greedy two-cursor loop over the line lists. -/
def computeDiff (t1 t2 : List Char) : List (DiffSegment (List Char)) :=
  diffGen (splitNl t1) (splitNl t2)

/-- Length of the longest common starting run of two character lists.  In the
source the matching branch of computeInlineDiff scans commonLen forward from
the current cursors; after the first (equal) characters are consumed the
remaining scan length is exactly this function of the two suffixes. -/
def lcp : List Char → List Char → Nat
  | x :: l1, y :: l2 => if x = y then lcp l1 l2 + 1 else 0
  | _, _ => 0

/-- Character-level diff (source function computeInlineDiff).  The cursors i
and j are represented by the remaining suffixes.  When one side is exhausted
the source pushes the whole remaining slice as one segment and breaks; when
the current characters match it pushes one unchanged segment covering the
longest common run (commonLen = 1 + lcp of the suffixes) and advances both
cursors by that length; otherwise it applies the mismatch rule to single
characters. -/
def computeInlineDiff : List Char → List Char → List (DiffSegment (List Char))
  | [], [] => []
  | [], y :: l2 => [⟨.added, y :: l2⟩]
  | x :: l1, [] => [⟨.removed, x :: l1⟩]
  | x :: l1, y :: l2 =>
    if x = y then
      ⟨.unchanged, x :: l1.take (lcp l1 l2)⟩ ::
        computeInlineDiff (l1.drop (lcp l1 l2)) (l2.drop (lcp l1 l2))
    else
      match mismatchChoice x y l1 l2 with
      | .del => ⟨.removed, [x]⟩ :: computeInlineDiff l1 (y :: l2)
      | .ins => ⟨.added, [y]⟩ :: computeInlineDiff (x :: l1) l2
      | .subst => ⟨.removed, [x]⟩ :: ⟨.added, [y]⟩ :: computeInlineDiff l1 l2
termination_by l1 l2 => l1.length + l2.length
decreasing_by all_goals (simp only [List.length_cons, List.length_nil, List.length_drop]; omega)

/-- The uncoalesced character-by-character algorithm the specification
describes in its character-diff section: the computeDiff loop applied to
individual characters, each emitted segment carrying a one-character text. -/
def uncoalescedCharDiff (t1 t2 : List Char) : List (DiffSegment (List Char)) :=
  (diffGen t1 t2).map (fun s => ⟨s.type, [s.text]⟩)

/-- Expand every segment into one single-character segment per character of
its text, keeping the tag. -/
def explodeSegs (segs : List (DiffSegment (List Char))) :
    List (DiffSegment (List Char)) :=
  (segs.map (fun s => s.text.map (fun c => (⟨s.type, [c]⟩ : DiffSegment (List Char))))).flatten

/-- Merge every maximal run of adjacent unchanged segments into one unchanged
segment (the coalescing the specification says is the only difference between
computeInlineDiff and the uncoalesced character algorithm). -/
def mergeUnchanged : List (DiffSegment (List Char)) → List (DiffSegment (List Char))
  | [] => []
  | s :: rest =>
    match s.type, mergeUnchanged rest with
    | .unchanged, ⟨.unchanged, t⟩ :: ts => ⟨.unchanged, s.text ++ t⟩ :: ts
    | _, ts => s :: ts

/-- The record returned by getDiffStats. -/
@[ext]
structure DiffStats where
  linesAdded : Nat
  linesRemoved : Nat
  linesUnchanged : Nat
  charactersAdded : Nat
  charactersRemoved : Nat
  similarity : ℚ
deriving DecidableEq, Repr

/-- JavaScript Math.round: round half toward positive infinity. -/
def jsRound (x : ℚ) : ℤ := Rat.floor (x + 1 / 2)

/-- The body of the forEach loop of getDiffStats: one segment updates the
five mutable counters. -/
def statsStep (acc : DiffStats) (s : DiffSegment (List Char)) : DiffStats :=
  match s.type with
  | .added =>
    { acc with
      linesAdded := acc.linesAdded + 1
      charactersAdded := acc.charactersAdded + s.text.length }
  | .removed =>
    { acc with
      linesRemoved := acc.linesRemoved + 1
      charactersRemoved := acc.charactersRemoved + s.text.length }
  | .unchanged =>
    { acc with linesUnchanged := acc.linesUnchanged + 1 }

/-- Statistics of the line diff (source function getDiffStats).  The forEach
loop over the diff with five mutable counters is modelled as a left fold; the
unchanged character count is the source's filter-and-reduce over the same
diff; similarity is (unchangedChars * 2) / totalChars when totalChars > 0 and
1 otherwise, then Math.round(similarity * 100) / 100. -/
def getDiffStats (t1 t2 : List Char) : DiffStats :=
  let diff := computeDiff t1 t2
  let c := diff.foldl statsStep
    { linesAdded := 0, linesRemoved := 0, linesUnchanged := 0
      charactersAdded := 0, charactersRemoved := 0, similarity := 0 }
  let totalChars := t1.length + t2.length
  let unchangedChars :=
    (diff.filter (fun s => s.type == .unchanged)).foldl
      (fun (sum : Nat) s => sum + s.text.length) 0
  let similarity : ℚ :=
    if totalChars > 0 then ((unchangedChars : ℚ) * 2) / (totalChars : ℚ) else 1
  { c with similarity := (jsRound (similarity * 100) : ℚ) / 100 }

/-- Texts of the segments whose tag is removed or unchanged, in order (the
segments drawn from the first input). -/
def leftTexts {α : Type} (segs : List (DiffSegment α)) : List α :=
  segs.filterMap (fun s =>
    match s.type with
    | .added => none
    | .removed => some s.text
    | .unchanged => some s.text)

/-- Texts of the segments whose tag is added or unchanged, in order (the
segments drawn from the second input). -/
def rightTexts {α : Type} (segs : List (DiffSegment α)) : List α :=
  segs.filterMap (fun s =>
    match s.type with
    | .added => some s.text
    | .removed => none
    | .unchanged => some s.text)

/-- Texts of the unchanged segments, in order. -/
def unchangedTexts {α : Type} (segs : List (DiffSegment α)) : List α :=
  (segs.filter (fun s => s.type == .unchanged)).map (fun s => s.text)


theorem firstIdx_eq_none_iff {α : Type} [DecidableEq α] (a : α) (l : List α) :
    firstIdx a l = none ↔ a ∉ l := by
  induction l with
  | nil => simp [firstIdx]
  | cons x l ih =>
    simp only [firstIdx, List.mem_cons]
    split
    · simp_all
    · rw [Option.map_eq_none', ih]
      simp_all [eq_comm]

theorem leftTexts_diffGen {α : Type} [DecidableEq α] (l1 l2 : List α) :
    leftTexts (diffGen l1 l2) = l1 := by
  induction l1, l2 using diffGen.induct <;>
    simp_all [diffGen, leftTexts, List.filterMap_cons]

theorem rightTexts_diffGen {α : Type} [DecidableEq α] (l1 l2 : List α) :
    rightTexts (diffGen l1 l2) = l2 := by
  induction l1, l2 using diffGen.induct <;>
    simp_all [diffGen, rightTexts, List.filterMap_cons]

theorem splitNl_ne_nil (t : List Char) : splitNl t ≠ [] := by
  induction t with
  | nil => simp [splitNl]
  | cons c cs ih =>
    simp only [splitNl]
    split
    · simp
    · cases h : splitNl cs <;> simp_all

theorem joinNl_splitNl (t : List Char) : joinNl (splitNl t) = t := by
  induction t with
  | nil => simp [splitNl, joinNl]
  | cons c cs ih =>
    simp only [splitNl]
    split
    · cases h : splitNl cs with
      | nil => exact absurd h (splitNl_ne_nil cs)
      | cons l ls => simp_all [joinNl]
    · cases h : splitNl cs with
      | nil => exact absurd h (splitNl_ne_nil cs)
      | cons l ls =>
        cases ls with
        | nil => simp_all [joinNl]
        | cons l' ls' => simp_all [joinNl]

theorem lcp_take_eq (l1 l2 : List Char) :
    l1.take (lcp l1 l2) = l2.take (lcp l1 l2) := by
  induction l1 generalizing l2 with
  | nil => simp [lcp]
  | cons x l1 ih =>
    cases l2 with
    | nil => simp [lcp]
    | cons y l2 =>
      simp only [lcp]
      split
      · simp_all [List.take_succ_cons]
      · simp

theorem leftTexts_inline (l1 l2 : List Char) :
    (leftTexts (computeInlineDiff l1 l2)).flatten = l1 := by
  induction l1, l2 using computeInlineDiff.induct <;>
    simp_all [computeInlineDiff, leftTexts, List.filterMap_cons, List.take_append_drop]

theorem rightTexts_inline (l1 l2 : List Char) :
    (rightTexts (computeInlineDiff l1 l2)).flatten = l2 := by
  induction l1, l2 using computeInlineDiff.induct <;>
    simp_all [computeInlineDiff, rightTexts, List.filterMap_cons]
  rw [lcp_take_eq, List.take_append_drop]

theorem diffGen_self {α : Type} [DecidableEq α] (l : List α) :
    diffGen l l = l.map (fun a => ⟨.unchanged, a⟩) := by
  induction l with
  | nil => simp [diffGen]
  | cons x l ih => simp [diffGen, ih]

theorem diffGen_nil_left {α : Type} [DecidableEq α] (l2 : List α) :
    diffGen [] l2 = l2.map (fun y => ⟨.added, y⟩) := by
  induction l2 with
  | nil => simp [diffGen]
  | cons y l2 ih => simp [diffGen, ih]

theorem diffGen_nil_right {α : Type} [DecidableEq α] (l1 : List α) :
    diffGen l1 [] = l1.map (fun x => ⟨.removed, x⟩) := by
  induction l1 with
  | nil => simp [diffGen]
  | cons x l1 ih => simp [diffGen, ih]


theorem diffGen_lcp (l1 l2 : List Char) :
    diffGen l1 l2 =
      ((l1.take (lcp l1 l2)).map (fun c => ⟨.unchanged, c⟩)) ++
        diffGen (l1.drop (lcp l1 l2)) (l2.drop (lcp l1 l2)) := by
  induction l1 generalizing l2 with
  | nil => simp [lcp]
  | cons x l1 ih =>
    cases l2 with
    | nil => simp [lcp]
    | cons y l2 =>
      by_cases hxy : x = y
      · subst hxy
        rw [show diffGen (x :: l1) (x :: l2) = ⟨.unchanged, x⟩ :: diffGen l1 l2 from by
          simp [diffGen]]
        rw [ih]
        simp [lcp, List.take_succ_cons, List.drop_succ_cons]
      · simp [lcp, hxy]

theorem explodeSegs_nil : explodeSegs [] = [] := by simp [explodeSegs]

theorem explodeSegs_cons (s : DiffSegment (List Char)) (rest : List (DiffSegment (List Char))) :
    explodeSegs (s :: rest) = s.text.map (fun c => ⟨s.type, [c]⟩) ++ explodeSegs rest := by
  simp [explodeSegs]

/-- Claim C3 (amended): computeInlineDiff agrees with the uncoalesced
character-by-character algorithm on the per-character classification:
expanding each of its segments into one single-character segment per
character yields exactly the uncoalesced output.  (The coalescing merges
maximal unchanged runs and also the whole remaining tail once one input is
exhausted, so added/removed segment boundaries may differ there.) -/
theorem c3_inline_is_coalesced_chardiff (l1 l2 : List Char) :
    explodeSegs (computeInlineDiff l1 l2) = uncoalescedCharDiff l1 l2 := by
  induction l1, l2 using computeInlineDiff.induct with
  | case1 => simp [computeInlineDiff, explodeSegs_nil, uncoalescedCharDiff, diffGen]
  | case2 y l2 =>
    simp [computeInlineDiff, explodeSegs_cons, explodeSegs_nil, uncoalescedCharDiff,
      diffGen_nil_left, List.map_map, Function.comp]
  | case3 x l1 =>
    simp [computeInlineDiff, explodeSegs_cons, explodeSegs_nil, uncoalescedCharDiff,
      diffGen_nil_right, List.map_map, Function.comp]
  | case4 l1 y l2 ih =>
    rw [show computeInlineDiff (y :: l1) (y :: l2) =
        ⟨.unchanged, y :: l1.take (lcp l1 l2)⟩ ::
          computeInlineDiff (l1.drop (lcp l1 l2)) (l2.drop (lcp l1 l2)) from by
      simp [computeInlineDiff]]
    rw [show uncoalescedCharDiff (y :: l1) (y :: l2) =
        ⟨.unchanged, [y]⟩ :: (diffGen l1 l2).map (fun s => ⟨s.type, [s.text]⟩) from by
      simp [uncoalescedCharDiff, diffGen]]
    rw [explodeSegs_cons, diffGen_lcp l1 l2]
    simp [uncoalescedCharDiff, List.map_map, Function.comp, ih]
    rfl
  | case5 x l1 y l2 hxy hc ih =>
    rw [show computeInlineDiff (x :: l1) (y :: l2) =
        ⟨.removed, [x]⟩ :: computeInlineDiff l1 (y :: l2) from by
      simp [computeInlineDiff, hxy, hc]]
    rw [show uncoalescedCharDiff (x :: l1) (y :: l2) =
        ⟨.removed, [x]⟩ :: uncoalescedCharDiff l1 (y :: l2) from by
      simp [uncoalescedCharDiff, diffGen, hxy, hc]]
    rw [explodeSegs_cons]
    simp [ih]
  | case6 x l1 y l2 hxy hc ih =>
    rw [show computeInlineDiff (x :: l1) (y :: l2) =
        ⟨.added, [y]⟩ :: computeInlineDiff (x :: l1) l2 from by
      simp [computeInlineDiff, hxy, hc]]
    rw [show uncoalescedCharDiff (x :: l1) (y :: l2) =
        ⟨.added, [y]⟩ :: uncoalescedCharDiff (x :: l1) l2 from by
      simp [uncoalescedCharDiff, diffGen, hxy, hc]]
    rw [explodeSegs_cons]
    simp [ih]
  | case7 x l1 y l2 hxy hc ih =>
    rw [show computeInlineDiff (x :: l1) (y :: l2) =
        ⟨.removed, [x]⟩ :: ⟨.added, [y]⟩ :: computeInlineDiff l1 l2 from by
      simp [computeInlineDiff, hxy, hc]]
    rw [show uncoalescedCharDiff (x :: l1) (y :: l2) =
        ⟨.removed, [x]⟩ :: ⟨.added, [y]⟩ :: uncoalescedCharDiff l1 l2 from by
      simp [uncoalescedCharDiff, diffGen, hxy, hc]]
    rw [explodeSegs_cons, explodeSegs_cons]
    simp [ih]


theorem foldl_statsStep (segs : List (DiffSegment (List Char))) (acc : DiffStats) :
    segs.foldl statsStep acc =
      { linesAdded := acc.linesAdded + segs.countP (fun s => s.type == .added)
        linesRemoved := acc.linesRemoved + segs.countP (fun s => s.type == .removed)
        linesUnchanged := acc.linesUnchanged + segs.countP (fun s => s.type == .unchanged)
        charactersAdded := acc.charactersAdded +
          (((segs.filter (fun s => s.type == .added)).map (fun s => s.text.length)).sum)
        charactersRemoved := acc.charactersRemoved +
          (((segs.filter (fun s => s.type == .removed)).map (fun s => s.text.length)).sum)
        similarity := acc.similarity } := by
  induction segs generalizing acc with
  | nil => simp
  | cons s rest ih =>
    rw [List.foldl_cons, ih]
    rcases s with ⟨ty, tx⟩
    cases ty <;>
      simp_all [statsStep, List.countP_cons, List.filter_cons] <;> omega

theorem foldl_lengths (segs : List (DiffSegment (List Char))) (n : Nat) :
    segs.foldl (fun (sum : Nat) s => sum + s.text.length) n =
      n + (segs.map (fun s => s.text.length)).sum := by
  induction segs generalizing n with
  | nil => simp
  | cons s rest ih => simp [ih]; omega

theorem rat_floor_eq_floor (q : ℚ) : Rat.floor q = ⌊q⌋ := rfl

theorem getDiffStats_similarity (t1 t2 : List Char) :
    (getDiffStats t1 t2).similarity =
      (⌊(if t1.length + t2.length = 0 then (1 : ℚ)
         else ((((unchangedTexts (computeDiff t1 t2)).map List.length).sum : ℚ) * 2) /
           (((t1.length + t2.length : ℕ)) : ℚ)) * 100 + 1 / 2⌋ : ℚ) / 100 := by
  simp only [getDiffStats, foldl_lengths, jsRound, rat_floor_eq_floor, unchangedTexts,
    List.map_map]
  by_cases h : t1.length + t2.length = 0
  · simp [h]
  · simp only [h, if_neg, gt_iff_lt, Nat.pos_of_ne_zero h, if_pos, if_false]
    norm_num
    rfl

theorem sublist_unchanged_left {α : Type} (segs : List (DiffSegment α)) :
    List.Sublist (unchangedTexts segs) (leftTexts segs) := by
  induction segs with
  | nil => simp [unchangedTexts, leftTexts]
  | cons s rest ih =>
    rcases s with ⟨ty, tx⟩
    cases ty with
    | added => simpa [unchangedTexts, leftTexts, List.filter_cons, List.filterMap_cons] using ih
    | removed =>
      simpa [unchangedTexts, leftTexts, List.filter_cons, List.filterMap_cons] using
        List.Sublist.cons tx ih
    | unchanged =>
      simpa [unchangedTexts, leftTexts, List.filter_cons, List.filterMap_cons] using
        List.Sublist.cons₂ tx ih

theorem sublist_unchanged_right {α : Type} (segs : List (DiffSegment α)) :
    List.Sublist (unchangedTexts segs) (rightTexts segs) := by
  induction segs with
  | nil => simp [unchangedTexts, rightTexts]
  | cons s rest ih =>
    rcases s with ⟨ty, tx⟩
    cases ty with
    | added =>
      simpa [unchangedTexts, rightTexts, List.filter_cons, List.filterMap_cons] using
        List.Sublist.cons tx ih
    | removed => simpa [unchangedTexts, rightTexts, List.filter_cons, List.filterMap_cons] using ih
    | unchanged =>
      simpa [unchangedTexts, rightTexts, List.filter_cons, List.filterMap_cons] using
        List.Sublist.cons₂ tx ih

theorem sum_lengths_splitNl (t : List Char) :
    ((splitNl t).map List.length).sum ≤ t.length := by
  induction t with
  | nil => simp [splitNl]
  | cons c cs ih =>
    simp only [splitNl]
    split
    · simp only [List.map_cons, List.sum_cons, List.length_nil, List.length_cons]
      omega
    · cases h : splitNl cs with
      | nil => exact absurd h (splitNl_ne_nil cs)
      | cons l ls => simp_all; omega

theorem unchanged_le_left (t1 t2 : List Char) :
    ((unchangedTexts (computeDiff t1 t2)).map List.length).sum ≤ t1.length := by
  refine le_trans ?_ (sum_lengths_splitNl t1)
  have h := (sublist_unchanged_left (computeDiff t1 t2)).map List.length
  rw [computeDiff, leftTexts_diffGen] at h
  exact List.Sublist.sum_le_sum h (by simp)

theorem unchanged_le_right (t1 t2 : List Char) :
    ((unchangedTexts (computeDiff t1 t2)).map List.length).sum ≤ t2.length := by
  refine le_trans ?_ (sum_lengths_splitNl t2)
  have h := (sublist_unchanged_right (computeDiff t1 t2)).map List.length
  rw [computeDiff, rightTexts_diffGen] at h
  exact List.Sublist.sum_le_sum h (by simp)


theorem sim0_bounds (t1 t2 : List Char) :
    0 ≤ (if t1.length + t2.length = 0 then (1 : ℚ)
         else ((((unchangedTexts (computeDiff t1 t2)).map List.length).sum : ℚ) * 2) /
           (((t1.length + t2.length : ℕ)) : ℚ)) ∧
    (if t1.length + t2.length = 0 then (1 : ℚ)
     else ((((unchangedTexts (computeDiff t1 t2)).map List.length).sum : ℚ) * 2) /
       (((t1.length + t2.length : ℕ)) : ℚ)) ≤ 1 := by
  by_cases h : t1.length + t2.length = 0
  · simp [h]
  · simp only [h, if_false]
    have hpos : (0 : ℚ) < ((t1.length + t2.length : ℕ) : ℚ) := by
      exact_mod_cast Nat.pos_of_ne_zero h
    constructor
    · positivity
    · rw [div_le_one hpos]
      have h1 := unchanged_le_left t1 t2
      have h2 := unchanged_le_right t1 t2
      have h1q : (((unchangedTexts (computeDiff t1 t2)).map List.length).sum : ℚ) ≤
          (t1.length : ℚ) := by exact_mod_cast h1
      have h2q : (((unchangedTexts (computeDiff t1 t2)).map List.length).sum : ℚ) ≤
          (t2.length : ℚ) := by exact_mod_cast h2
      rw [Nat.cast_add]
      linarith


theorem mismatchChoice_eq_subst_iff {α : Type} [DecidableEq α] (x y : α) (l1 l2 : List α) :
    mismatchChoice x y l1 l2 = MismatchChoice.subst ↔
      (firstIdx y l1 = none ∧ firstIdx x l2 = none) ∨
      (∃ d, firstIdx y l1 = some d ∧ firstIdx x l2 = some d) := by
  unfold mismatchChoice
  rcases h1 : firstIdx y l1 with _ | d1 <;> rcases h2 : firstIdx x l2 with _ | d2 <;>
    simp [h1, h2]
  split_ifs with hlt hgt
  · simp
    omega
  · simp
    omega
  · simp
    omega

/-- Claim C1: joining with a newline separator the texts of the segments of
computeDiff t1 t2 whose kind is removed or unchanged yields exactly t1, and
joining those whose kind is added or unchanged yields exactly t2; for
computeInlineDiff, plain concatenation of the removed-or-unchanged segment
texts yields t1 and of the added-or-unchanged segment texts yields t2. -/
theorem c1_reconstruction (t1 t2 : List Char) :
    joinNl (leftTexts (computeDiff t1 t2)) = t1 ∧
    joinNl (rightTexts (computeDiff t1 t2)) = t2 ∧
    (leftTexts (computeInlineDiff t1 t2)).flatten = t1 ∧
    (rightTexts (computeInlineDiff t1 t2)).flatten = t2 := by
  refine ⟨?_, ?_, leftTexts_inline t1 t2, rightTexts_inline t1 t2⟩
  · rw [computeDiff, leftTexts_diffGen, joinNl_splitNl]
  · rw [computeDiff, rightTexts_diffGen, joinNl_splitNl]

/-- Claim C2 counterexample: computeDiff of two empty strings returns a
sequence of length 1, not an empty sequence, and getDiffStats of two empty
strings has linesUnchanged equal to 1, not 0. -/
theorem c2_counterexample :
    (computeDiff "".toList "".toList).length = 1 ∧
    (getDiffStats "".toList "".toList).linesUnchanged = 1 := by
  constructor
  · simp [computeDiff, splitNl, diffGen]
  · simp [getDiffStats, computeDiff, splitNl, diffGen, foldl_statsStep, statsStep]

/-- Claim C2 (amended): computeDiff of two empty strings returns exactly one
segment, unchanged with empty text (splitting the empty string on a newline
yields one empty line), and getDiffStats of two empty strings returns
similarity 1, linesUnchanged 1, and the other four counters 0. -/
theorem c2_empty_inputs_amended :
    computeDiff "".toList "".toList = [⟨.unchanged, []⟩] ∧
    getDiffStats "".toList "".toList =
      { linesAdded := 0, linesRemoved := 0, linesUnchanged := 1
        charactersAdded := 0, charactersRemoved := 0, similarity := 1 } := by
  constructor
  · simp [computeDiff, splitNl, diffGen]
  · refine DiffStats.ext ?_ ?_ ?_ ?_ ?_ ?_ <;>
      simp [getDiffStats, computeDiff, splitNl, diffGen, foldl_statsStep, foldl_lengths,
        statsStep, jsRound]
    norm_num [Rat.floor_def']

/-- Claim C3 counterexample: on inputs "" and "ab", computeInlineDiff emits
one added segment "ab", while the uncoalesced character algorithm with only
its unchanged runs merged emits two added segments "a" and "b" - the added
segment boundaries differ, refuting the claim that only unchanged runs are
coalesced. -/
theorem c3_counterexample :
    computeInlineDiff "".toList "ab".toList = [⟨.added, ['a', 'b']⟩] ∧
    mergeUnchanged (uncoalescedCharDiff "".toList "ab".toList) =
      [⟨.added, ['a']⟩, ⟨.added, ['b']⟩] := by
  constructor
  · simp [computeInlineDiff]
  · simp [mergeUnchanged, uncoalescedCharDiff, diffGen]

/-- Claim C4 counterexample: at the mismatch of lines "a" and "b" with
suffixes ["b"] and ["a"], both lines reappear later at equal distance
(firstIdx gives some 0 on both sides), yet the outcome is a paired
substitution, not the claimed deletion; on the full inputs "a\nb" and
"b\na" computeDiff emits two removed/added pairs. -/
theorem c4_counterexample :
    mismatchChoice ['a'] ['b'] [['b']] [['a']] = MismatchChoice.subst ∧
    firstIdx (['b'] : List Char) [['b']] = some 0 ∧
    firstIdx (['a'] : List Char) [['a']] = some 0 ∧
    computeDiff "a\nb".toList "b\na".toList =
      [⟨.removed, ['a']⟩, ⟨.added, ['b']⟩, ⟨.removed, ['b']⟩, ⟨.added, ['a']⟩] := by
  refine ⟨by decide, by decide, by decide, ?_⟩
  simp [computeDiff, splitNl, diffGen, mismatchChoice, firstIdx]

/-- Claim C4 (amended): at a mismatch the paired-substitution outcome occurs
exactly when either neither line reappears later, or both reappear at equal
distances; in particular an equal-distance tie yields a substitution (the
strict tie-break favors a deletion only when the first distance is strictly
smaller), and when the substitution branch is taken the loop emits removed
then added and advances both cursors. -/
theorem c4_mismatch_rule_amended (x y : List Char) (l1 l2 : List (List Char)) :
    (mismatchChoice x y l1 l2 = MismatchChoice.subst ↔
      (y ∉ l1 ∧ x ∉ l2) ∨
      (∃ d, firstIdx y l1 = some d ∧ firstIdx x l2 = some d)) ∧
    (∀ d, firstIdx y l1 = some d → firstIdx x l2 = some d →
      mismatchChoice x y l1 l2 = MismatchChoice.subst) ∧
    (x ≠ y → mismatchChoice x y l1 l2 = MismatchChoice.subst →
      diffGen (x :: l1) (y :: l2) =
        ⟨.removed, x⟩ :: ⟨.added, y⟩ :: diffGen l1 l2) := by
  refine ⟨?_, ?_, ?_⟩
  · rw [← firstIdx_eq_none_iff y l1, ← firstIdx_eq_none_iff x l2]
    exact mismatchChoice_eq_subst_iff x y l1 l2
  · intro d hd1 hd2
    exact (mismatchChoice_eq_subst_iff x y l1 l2).mpr (Or.inr ⟨d, hd1, hd2⟩)
  · intro hxy hc
    simp [diffGen, hxy, hc]

/-- Claim C5: getDiffStats is computed from the line diff computeDiff:
linesAdded, linesRemoved, linesUnchanged count the segments of each kind;
charactersAdded and charactersRemoved sum the text lengths of the added and
removed segments; and similarity is twice the summed length of the unchanged
segments' text over the total input length (1 when both inputs are empty),
rounded half-up to two decimal places. -/
theorem c5_stats_from_line_diff (t1 t2 : List Char) :
    getDiffStats t1 t2 =
      { linesAdded := (computeDiff t1 t2).countP (fun s => s.type == .added)
        linesRemoved := (computeDiff t1 t2).countP (fun s => s.type == .removed)
        linesUnchanged := (computeDiff t1 t2).countP (fun s => s.type == .unchanged)
        charactersAdded :=
          (((computeDiff t1 t2).filter (fun s => s.type == .added)).map
            (fun s => s.text.length)).sum
        charactersRemoved :=
          (((computeDiff t1 t2).filter (fun s => s.type == .removed)).map
            (fun s => s.text.length)).sum
        similarity :=
          (⌊(if t1.length + t2.length = 0 then (1 : ℚ)
             else ((((unchangedTexts (computeDiff t1 t2)).map List.length).sum : ℚ) * 2) /
               (((t1.length + t2.length : ℕ)) : ℚ)) * 100 + 1 / 2⌋ : ℚ) / 100 } := by
  refine DiffStats.ext ?_ ?_ ?_ ?_ ?_ ?_
  · simp [getDiffStats, foldl_statsStep]
  · simp [getDiffStats, foldl_statsStep]
  · simp [getDiffStats, foldl_statsStep]
  · simp [getDiffStats, foldl_statsStep]
  · simp [getDiffStats, foldl_statsStep]
  · simpa using getDiffStats_similarity t1 t2

/-- Claim C6: computeDiff of a string with itself yields its lines (the
string split on newlines), one segment per line, all tagged unchanged, with
no removed or added segments at all. -/
theorem c6_identity_diff (t : List Char) :
    computeDiff t t = (splitNl t).map (fun l => ⟨.unchanged, l⟩) ∧
    (computeDiff t t).all (fun s => s.type == DiffType.unchanged) = true := by
  have h : computeDiff t t =
      (splitNl t).map (fun l => (⟨.unchanged, l⟩ : DiffSegment (List Char))) := by
    rw [computeDiff, diffGen_self]
  refine ⟨h, ?_⟩
  rw [h, List.all_eq_true]
  intro s hs
  simp only [List.mem_map] at hs
  rcases hs with ⟨l, _, rfl⟩
  rfl

/-- Claim C7: for all inputs, the similarity of getDiffStats lies between 0
and 1. -/
theorem c7_similarity_bounds (t1 t2 : List Char) :
    0 ≤ (getDiffStats t1 t2).similarity ∧ (getDiffStats t1 t2).similarity ≤ 1 := by
  obtain ⟨h0, h1⟩ := sim0_bounds t1 t2
  rw [getDiffStats_similarity]
  set s0 : ℚ := (if t1.length + t2.length = 0 then (1 : ℚ)
     else ((((unchangedTexts (computeDiff t1 t2)).map List.length).sum : ℚ) * 2) /
       (((t1.length + t2.length : ℕ)) : ℚ)) with hs0
  constructor
  · apply div_nonneg _ (by norm_num)
    have hf : (0 : ℤ) ≤ ⌊s0 * 100 + 1 / 2⌋ := Int.floor_nonneg.mpr (by nlinarith)
    exact_mod_cast hf
  · rw [div_le_one (by norm_num)]
    have hlt : ⌊s0 * 100 + 1 / 2⌋ < (101 : ℤ) := Int.floor_lt.mpr (by push_cast; nlinarith)
    have hle : ⌊s0 * 100 + 1 / 2⌋ ≤ (100 : ℤ) := by omega
    exact_mod_cast hle

/-- Claim C8 counterexample: computeInlineDiff of "hello" and "hallo"
returns a sequence of length 4, not the claimed three segments (the
removed/added pair is two segments). -/
theorem c8_counterexample :
    (computeInlineDiff "hello".toList "hallo".toList).length = 4 := by
  simp [computeInlineDiff, mismatchChoice, firstIdx, lcp]

/-- Claim C8 (amended): computeInlineDiff of "hello" and "hallo" yields four
segments: unchanged "h", then the removed "e" / added "a" pair for the
differing character, then unchanged "llo". -/
theorem c8_hello_hallo :
    computeInlineDiff "hello".toList "hallo".toList =
      [⟨.unchanged, ['h']⟩, ⟨.removed, ['e']⟩, ⟨.added, ['a']⟩,
       ⟨.unchanged, ['l', 'l', 'o']⟩] := by
  simp [computeInlineDiff, mismatchChoice, firstIdx, lcp]

/-- Claim C9: computeDiff of "a\nb" and "a\nx\nb" yields exactly the three
segments unchanged "a", added "x", unchanged "b", in that order. -/
theorem c9_pure_insertion :
    computeDiff "a\nb".toList "a\nx\nb".toList =
      [⟨.unchanged, ['a']⟩, ⟨.added, ['x']⟩, ⟨.unchanged, ['b']⟩] := by
  simp [computeDiff, splitNl, diffGen, mismatchChoice, firstIdx]

/-- Claim C10: for every pair of inputs computeDiff returns at least one
segment, and on two empty strings it returns exactly one unchanged segment
with empty text. -/
theorem c10_output_nonempty :
    (∀ t1 t2 : List Char, 1 ≤ (computeDiff t1 t2).length) ∧
    computeDiff "".toList "".toList = [⟨.unchanged, []⟩] := by
  constructor
  · intro t1 t2
    rw [computeDiff]
    rcases h1 : splitNl t1 with _ | ⟨a, as⟩
    · exact absurd h1 (splitNl_ne_nil t1)
    rcases h2 : splitNl t2 with _ | ⟨b, bs⟩
    · exact absurd h2 (splitNl_ne_nil t2)
    by_cases hab : a = b
    · subst hab
      simp [diffGen]
    · cases hc : mismatchChoice a b as bs <;> simp [diffGen, hab, hc]
  · simp [computeDiff, splitNl, diffGen]

end RealTools
